import Mathlib

/-!
Verification of the wiki page-loading pipeline (`src/wiki/mod.rs`).

Strings are modelled as `List Char` (`Str`), file systems as partial maps
from paths to contents, and the external collaborators (YAML load/emit,
markdown rendering) as parameters collected in a `Facilities` structure.
The frontmatter splitting facility is modelled from the spec, since its
code is not part of this repository.
-/

namespace WikiRs

/-- Strings as lists of characters, so that list lemmas apply. -/
abbrev Str := List Char

/-- The frontmatter delimiter marker line `"---\n"`. -/
def delim : Str := ("---\n").data

/-- The markdown file extension `".md"`. -/
def mdSuffix : Str := (".md").data

/-- Fuel-driven worker for `trim_left_matches`: repeatedly removes the
pattern `pat` from the front of `s` while it is a prefix, like Rust's
`str::trim_left_matches`. -/
def trimLeftAux (pat : Str) : Nat → Str → Str
  | 0, s => s
  | n + 1, s =>
    if pat ≠ [] ∧ pat <+: s then trimLeftAux pat n (s.drop pat.length) else s

/-- Rust `str::trim_left_matches`: removes every leading repetition of
`pat` from `s` (an empty pattern removes nothing). -/
def trim_left_matches (pat s : Str) : Str :=
  trimLeftAux pat s.length s

/-- Rust `str::trim_right_matches`: removes every trailing repetition of
`pat` from `s`, realised by trimming the reversed pattern from the front
of the reversed string. -/
def trim_right_matches (pat s : Str) : Str :=
  (trim_left_matches pat.reverse s.reverse).reverse

/-- `convert_path_to_url` from `src/wiki/mod.rs`: trims the base path
from the front and the `.md` extension from the back. -/
def convert_path_to_url (base_path path : Str) : Str :=
  let url := path
  let url := trim_left_matches base_path url
  let url := trim_right_matches mdSuffix url
  url

/-- `convert_url_to_path` from `src/wiki/mod.rs`: concatenates base path,
url and the `.md` extension. -/
def convert_url_to_path (base_path url : Str) : Str :=
  base_path ++ url ++ mdSuffix

example : convert_path_to_url ("/wikidir").data ("/lol/what/a/path.md").data
    = ("/lol/what/a/path").data := by decide

example : convert_url_to_path ("/wikidir").data ("/lol/what/a/path").data
    = ("/wikidir/lol/what/a/path.md").data := by decide

example : (("/a").data <+: ("/a/a/x.md").data) := by decide
example : (mdSuffix <:+ ("/a/a/x.md").data) := by decide

/-- Trimming the empty list never changes anything. -/
lemma trimLeftAux_nil_pat (n : Nat) (s : Str) : trimLeftAux [] n s = s := by
  cases n <;> simp [trimLeftAux]

/-- Trimming anything from the empty list gives the empty list. -/
lemma trimLeftAux_nil (pat : Str) (n : Nat) : trimLeftAux pat n [] = [] := by
  cases n with
  | zero => rfl
  | succ n =>
    simp only [trimLeftAux]
    split
    · rename_i h
      rcases h.2 with ⟨t, ht⟩
      have : pat = [] := by
        cases pat with
        | nil => rfl
        | cons c cs => simp at ht
      exact absurd this h.1
    · rfl

/-- The result of `trimLeftAux` does not depend on the fuel, as long as the
fuel covers the length of the list. -/
lemma trimLeftAux_fuel (pat : Str) :
    ∀ n m s, s.length ≤ n → s.length ≤ m →
      trimLeftAux pat n s = trimLeftAux pat m s := by
  intro n
  induction n with
  | zero =>
    intro m s hn _
    have : s = [] := List.eq_nil_of_length_eq_zero (Nat.le_zero.mp hn)
    subst this
    rw [trimLeftAux_nil, trimLeftAux_nil]
  | succ n ih =>
    intro m s hn hm
    cases m with
    | zero =>
      have : s = [] := List.eq_nil_of_length_eq_zero (Nat.le_zero.mp hm)
      subst this
      rw [trimLeftAux_nil, trimLeftAux_nil]
    | succ m =>
      simp only [trimLeftAux]
      split
      · rename_i h
        have hplen : 1 ≤ pat.length := by
          cases hp : pat with
          | nil => exact absurd hp h.1
          | cons c cs => simp
        have hdrop : (s.drop pat.length).length = s.length - pat.length := by
          simp
        have hlt : s.length - pat.length < s.length := by
          have hs : 1 ≤ s.length := le_trans hplen h.2.length_le
          omega
        apply ih
        · omega
        · omega
      · rfl

/-- Trimming the empty pattern is the identity (Rust: an empty pattern
matches only the empty string, which removes nothing). -/
lemma trim_left_matches_nil_pat (s : Str) : trim_left_matches [] s = s :=
  trimLeftAux_nil_pat _ _

/-- If the pattern is not a prefix, `trim_left_matches` is the identity. -/
lemma trim_left_matches_not_pre (pat s : Str) (h : ¬ pat <+: s) :
    trim_left_matches pat s = s := by
  unfold trim_left_matches
  cases hn : s.length with
  | zero => rfl
  | succ n => simp only [trimLeftAux, h, and_false, if_false]

/-- One leading copy of a nonempty pattern is removed and trimming
continues. -/
lemma trim_left_matches_append (pat s : Str) (hp : pat ≠ []) :
    trim_left_matches pat (pat ++ s) = trim_left_matches pat s := by
  unfold trim_left_matches
  obtain ⟨k, hk⟩ : ∃ k, (pat ++ s).length = k + 1 := by
    cases hp' : pat with
    | nil => exact absurd hp' hp
    | cons c cs => exact ⟨(cs ++ s).length, by simp⟩
  rw [hk]
  have hstep : trimLeftAux pat (k + 1) (pat ++ s) = trimLeftAux pat k s := by
    simp only [trimLeftAux]
    have hpre : pat <+: pat ++ s := ⟨s, rfl⟩
    simp only [hp, hpre, ne_eq, not_false_eq_true, and_self, if_true]
    rw [List.drop_left]
  rw [hstep]
  apply trimLeftAux_fuel
  · have h1 : 1 ≤ pat.length := by
      cases hp' : pat with
      | nil => exact absurd hp' hp
      | cons c cs => simp
    have h2 : (pat ++ s).length = pat.length + s.length := by simp
    omega
  · exact le_refl _

/-- If the pattern is not a suffix, `trim_right_matches` is the identity. -/
lemma trim_right_matches_not_suf (pat s : Str) (h : ¬ pat <:+ s) :
    trim_right_matches pat s = s := by
  unfold trim_right_matches
  rw [trim_left_matches_not_pre, List.reverse_reverse]
  intro hc
  exact h (( List.reverse_prefix).mp hc)

/-- One trailing copy of a nonempty pattern is removed and trimming
continues. -/
lemma trim_right_matches_append (pat s : Str) (hp : pat ≠ []) :
    trim_right_matches pat (s ++ pat) = trim_right_matches pat s := by
  unfold trim_right_matches
  rw [List.reverse_append]
  rw [trim_left_matches_append]
  intro hc
  exact hp (by simpa using congrArg List.reverse hc)

/-- Trimming a leading base that occurs exactly once, then a trailing
`.md` that occurs exactly once, leaves exactly the middle part. -/
lemma convert_path_to_url_exact (base t : Str)
    (hbase : base = [] ∨ ¬ base <+: (t ++ mdSuffix))
    (hmd : ¬ mdSuffix <:+ t) :
    convert_path_to_url base (base ++ (t ++ mdSuffix)) = t := by
  show trim_right_matches mdSuffix
    (trim_left_matches base (base ++ (t ++ mdSuffix))) = t
  have h1 : trim_left_matches base (base ++ (t ++ mdSuffix)) = t ++ mdSuffix := by
    rcases hbase with hb | hb
    · subst hb
      rw [List.nil_append, trim_left_matches_nil_pat]
    · have hbne : base ≠ [] := by
        intro he
        exact hb (he ▸ ⟨t ++ mdSuffix, by simp⟩)
      rw [trim_left_matches_append _ _ hbne,
        trim_left_matches_not_pre _ _ hb]
  rw [h1]
  have hmdne : mdSuffix ≠ [] := by decide
  rw [trim_right_matches_append _ _ hmdne,
    trim_right_matches_not_suf _ _ hmd]

/-- C1 (amended): the round trip is the identity when the base occurs as a
prefix exactly once and `.md` occurs as a suffix exactly once. -/
theorem claim_C1_roundtrip (base p t : Str)
    (hsplit : p = base ++ (t ++ mdSuffix))
    (hbase : base = [] ∨ ¬ base <+: (t ++ mdSuffix))
    (hmd : ¬ mdSuffix <:+ t) :
    convert_url_to_path base (convert_path_to_url base p) = p := by
  subst hsplit
  rw [convert_path_to_url_exact base t hbase hmd]
  unfold convert_url_to_path
  simp

/-- C1 witness: a concrete round trip through the amended theorem. -/
theorem claim_C1_roundtrip_witness :
    convert_url_to_path ("/wikidir").data
      (convert_path_to_url ("/wikidir").data ("/wikidir/lol/what/a/path.md").data)
      = ("/wikidir/lol/what/a/path.md").data :=
  claim_C1_roundtrip ("/wikidir").data _ ("/lol/what/a/path").data
    (by decide) (Or.inr (by decide)) (by decide)

/-- C1 counterexample: `"/a/a/x.md"` starts with `"/a"` and ends with
`".md"`, yet the round trip through `convert_path_to_url` and
`convert_url_to_path` does not restore it (both leading copies of the
base are stripped). -/
theorem claim_C1_counterexample :
    (("/a").data <+: ("/a/a/x.md").data) ∧
    (mdSuffix <:+ ("/a/a/x.md").data) ∧
    convert_url_to_path ("/a").data
      (convert_path_to_url ("/a").data ("/a/a/x.md").data)
      ≠ ("/a/a/x.md").data := by
  refine ⟨by decide, by decide, by decide⟩

/-- C9 (amended): `convert_path_to_url` strips every leading repetition of
the base and every trailing repetition of `.md`; when no further leading
copy of the base remains after the explicit ones, the result is `s` with
all trailing `.md` repetitions removed. -/
theorem claim_C9_strips_all (base s : Str)
    (h : base = [] ∨ ¬ base <+: (s ++ (".md.md").data)) :
    convert_path_to_url base (base ++ base ++ s ++ (".md.md").data)
      = trim_right_matches mdSuffix s := by
  show trim_right_matches mdSuffix
    (trim_left_matches base (base ++ base ++ s ++ (".md.md").data))
    = trim_right_matches mdSuffix s
  have hmm : (".md.md").data = mdSuffix ++ mdSuffix := by decide
  have h1 : trim_left_matches base (base ++ base ++ s ++ (".md.md").data)
      = s ++ (".md.md").data := by
    rcases h with hb | hb
    · subst hb
      rw [trim_left_matches_nil_pat]
      simp
    · have hbne : base ≠ [] := by
        intro he
        exact hb (he ▸ ⟨s ++ (".md.md").data, by simp⟩)
      have hassoc : base ++ base ++ s ++ (".md.md").data
          = base ++ (base ++ (s ++ (".md.md").data)) := by simp
      rw [hassoc, trim_left_matches_append _ _ hbne,
        trim_left_matches_append _ _ hbne,
        trim_left_matches_not_pre _ _ hb]
  rw [h1, hmm]
  have hmdne : mdSuffix ≠ [] := by decide
  rw [show s ++ (mdSuffix ++ mdSuffix) = (s ++ mdSuffix) ++ mdSuffix by simp,
    trim_right_matches_append _ _ hmdne, trim_right_matches_append _ _ hmdne]

/-- C9 witness: the claim's own example, `"/a/x.md.md"` under base
`"/wiki"`, maps to `"/a/x"`, through the amended theorem. -/
theorem claim_C9_strips_all_witness :
    convert_path_to_url ("/wiki").data
      (("/wiki").data ++ ("/wiki").data ++ ("/a/x").data ++ (".md.md").data)
      = ("/a/x").data :=
  (claim_C9_strips_all ("/wiki").data ("/a/x").data
    (Or.inr (by decide))).trans (by decide)

/-- C9 counterexample: when `s` itself starts with the base, even more
copies of the base are stripped, so the universally quantified form of the
claim fails (`base = "b"`, `s = "bq"` yields `"q"`, not `"bq"`). -/
theorem claim_C9_counterexample :
    convert_path_to_url ("b").data
      (("b").data ++ ("b").data ++ ("bq").data ++ (".md.md").data)
      ≠ trim_right_matches mdSuffix ("bq").data := by
  decide

/-- First index at which `pat` occurs as a contiguous sublist of `s`
(Rust `str::find` on a string pattern). -/
def findSub (pat : Str) : Str → Option Nat
  | [] => if pat = [] then some 0 else none
  | c :: rest =>
    if pat <+: (c :: rest) then some 0 else (findSub pat rest).map (· + 1)

example : findSub delim ("ab---\ncd").data = some 2 := by decide
example : findSub delim ("abcd").data = none := by decide

/-- The external collaborators of the core, over an abstract type `Y` of
YAML metadata documents: the YAML loader (`YamlLoader::load_from_str`
followed by popping the last document — `none` models an empty stream),
the YAML emitter (`YamlEmitter::dump`), and the markdown renderer
(`hoedown`'s `Html::render`). -/
structure Facilities (Y : Type) where
  yamlLoad : Str → Except Unit (Option Y)
  yamlEmit : Y → Str
  render : Str → Str

/-- Modelled from the spec: the frontmatter facility's block finder, whose
code is not part of this repository. A metadata block is delimited by a
leading `"---\n"` marker line and a closing `"---\n"` marker; the result
is the index of the closing marker in the text after the leading marker.
Content without a leading delimiter, or without a closing one, has no
block. -/
def find_yaml_block (text : Str) : Option Nat :=
  if delim <+: text then findSub delim (text.drop delim.length) else none

/-- Modelled from the spec: `frontmatter::parse_and_find_content`, whose
code is not part of this repository. It returns either the parsed
metadata document together with the remaining body, or a parse failure;
per the spec's soft-fail policy, content with no frontmatter delimiter
lines is a parse failure. -/
def parse_and_find_content {Y : Type} (F : Facilities Y) (text : Str) :
    Except Unit (Option Y × Str) :=
  match find_yaml_block text with
  | some i =>
    let rest := text.drop delim.length
    match F.yamlLoad (rest.take i) with
    | Except.ok y => Except.ok (y, rest.drop (i + delim.length))
    | Except.error e => Except.error e
  | none => Except.error ()

/-- The `Page` struct of `src/wiki/mod.rs`. The `markdown` field mirrors
the stored `hoedown::Markdown` object by keeping the text it was built
from. -/
structure Page (Y : Type) where
  base_path : Str
  path : Str
  url : Str
  raw : Str
  meta : Option Y
  markdown_raw : Str
  markdown : Str
  html : Str
  deriving DecidableEq

deriving instance DecidableEq for Except

/-- A file system: a partial map from paths to text contents; `none`
models a file that cannot be opened or read as text. -/
abbrev FS := Str → Option Str

/-- `Page::update_markdown`: stores the new markdown body and re-renders
the HTML. -/
def Page.update_markdown {Y : Type} (F : Facilities Y) (p : Page Y)
    (markdown : Str) : Page Y :=
  { p with
    markdown_raw := markdown
    markdown := markdown
    html := F.render markdown }

/-- `Page::load`: splits `raw` into frontmatter and body; on success
stores the metadata and updates the markdown, on failure does nothing. -/
def Page.load {Y : Type} (F : Facilities Y) (p : Page Y) : Page Y :=
  match parse_and_find_content F p.raw with
  | Except.ok (meta, markdown) => ({ p with meta := meta }).update_markdown F markdown
  | Except.error _ => p

/-- `Page::read_from_file`: reads the backing file into `raw`, failing
with an I/O error if the file cannot be read. -/
def Page.read_from_file {Y : Type} (fs : FS) (p : Page Y) :
    Except Unit (Page Y) :=
  match fs p.path with
  | some buffer => Except.ok { p with raw := buffer }
  | none => Except.error ()

/-- `Page::new_from_file`: builds an empty page, reads the backing file,
and interprets its raw content. -/
def Page.new_from_file {Y : Type} (F : Facilities Y) (fs : FS)
    (base_path path : Str) : Except Unit (Page Y) :=
  let url := convert_path_to_url base_path path
  let page : Page Y :=
    { base_path := base_path
      path := path
      url := url
      raw := []
      meta := none
      markdown_raw := []
      markdown := []
      html := [] }
  match page.read_from_file fs with
  | Except.ok page => Except.ok (page.load F)
  | Except.error e => Except.error e

/-- `Page::update_raw`: rebuilds `raw` from a delimiter line, the emitted
metadata (when present), a closing delimiter line, and the markdown body. -/
def Page.update_raw {Y : Type} (F : Facilities Y) (p : Page Y) : Page Y :=
  let buffer : Str := []
  let buffer := buffer ++ delim
  let buffer :=
    match p.meta with
    | some yaml => buffer ++ F.yamlEmit yaml
    | none => buffer
  let buffer := buffer ++ delim
  let buffer := buffer ++ p.markdown_raw
  { p with raw := buffer }

/-- `Page::save_to_file` (success path): recomputes `raw` and overwrites
the backing file with it. -/
def Page.save_to_file {Y : Type} (F : Facilities Y) (fs : FS) (p : Page Y) :
    Page Y × FS :=
  let p := p.update_raw F
  (p, fun q => if q = p.path then some p.raw else fs q)

/-- `findSub` finds an occurrence sitting at the very front. -/
lemma findSub_here (pat t : Str) : findSub pat (pat ++ t) = some 0 := by
  cases hp : pat with
  | nil =>
    cases t with
    | nil => rfl
    | cons c r => simp [findSub]
  | cons c r =>
    have : pat <+: pat ++ t := ⟨t, rfl⟩
    rw [hp] at this
    simp [findSub, this]

/-- If `findSub` finds nothing, the pattern is in particular no prefix. -/
lemma findSub_none_no_pre (pat s : Str) (h : findSub pat s = none) :
    ¬ pat <+: s := by
  cases s with
  | nil =>
    intro hp
    rcases hp with ⟨t, ht⟩
    have hpat : pat = [] := by
      cases pat with
      | nil => rfl
      | cons c cs => simp at ht
    rw [hpat] at h
    simp [findSub] at h
  | cons c rest =>
    intro hp
    simp [findSub, hp] at h

/-- The shape of the raw content rebuilt by `update_raw`. -/
lemma update_raw_spec {Y : Type} (F : Facilities Y) (p : Page Y) :
    (p.update_raw F).raw
      = delim ++ ((match p.meta with
          | some y => F.yamlEmit y
          | none => []) ++ (delim ++ p.markdown_raw)) := by
  cases hm : p.meta <;> simp [Page.update_raw, hm]

/-- `update_raw` changes only the `raw` field. -/
lemma update_raw_frame {Y : Type} (F : Facilities Y) (p : Page Y) :
    (p.update_raw F).base_path = p.base_path ∧
    (p.update_raw F).path = p.path ∧
    (p.update_raw F).url = p.url ∧
    (p.update_raw F).meta = p.meta ∧
    (p.update_raw F).markdown_raw = p.markdown_raw ∧
    (p.update_raw F).html = p.html := by
  simp [Page.update_raw]

/-- When reading succeeds but the frontmatter split fails, the page is
returned with its constructed-empty interpretation fields. -/
lemma new_from_file_split_failure {Y : Type} (F : Facilities Y) (fs : FS)
    (base path content : Str)
    (hfs : fs path = some content)
    (hfail : parse_and_find_content F content = Except.error ()) :
    Page.new_from_file F fs base path = Except.ok
      { base_path := base
        path := path
        url := convert_path_to_url base path
        raw := content
        meta := none
        markdown_raw := []
        markdown := []
        html := [] } := by
  simp [Page.new_from_file, Page.read_from_file, hfs, Page.load, hfail]

/-- When reading succeeds, `new_from_file` returns the interpreted page. -/
lemma new_from_file_read_ok {Y : Type} (F : Facilities Y) (fs : FS)
    (base path content : Str)
    (hfs : fs path = some content) :
    Page.new_from_file F fs base path = Except.ok
      (Page.load F
        { base_path := base
          path := path
          url := convert_path_to_url base path
          raw := content
          meta := none
          markdown_raw := []
          markdown := []
          html := [] }) := by
  simp [Page.new_from_file, Page.read_from_file, hfs]

/-- C6: `update_raw` sets `raw` to exactly a delimiter line, the YAML
encoding of `meta` when present (nothing when absent), a closing
delimiter line, then `markdown_raw` verbatim. -/
theorem claim_C6_serialize {Y : Type} (F : Facilities Y) (p : Page Y) :
    (p.update_raw F).raw
      = delim ++ (match p.meta with
          | some y => F.yamlEmit y
          | none => []) ++ delim ++ p.markdown_raw := by
  rw [update_raw_spec]
  simp

/-- C7: a successful `save_to_file` leaves `meta`, `markdown_raw`, `html`,
`url`, `path` and `base_path` unchanged, recomputes only `raw` (via
`update_raw`), and afterwards the file system maps the page's path to
exactly the bytes of `raw`. -/
theorem claim_C7_save_frame {Y : Type} (F : Facilities Y) (fs : FS)
    (p : Page Y) :
    (p.save_to_file F fs).1.meta = p.meta ∧
    (p.save_to_file F fs).1.markdown_raw = p.markdown_raw ∧
    (p.save_to_file F fs).1.html = p.html ∧
    (p.save_to_file F fs).1.url = p.url ∧
    (p.save_to_file F fs).1.path = p.path ∧
    (p.save_to_file F fs).1.base_path = p.base_path ∧
    (p.save_to_file F fs).1 = p.update_raw F ∧
    (p.save_to_file F fs).2 p.path = some (p.save_to_file F fs).1.raw := by
  simp [Page.save_to_file, Page.update_raw]

/-- C2: loading a file whose content has no frontmatter delimiter line
yields a page with absent `meta` and empty `markdown_raw` and `html`. -/
theorem claim_C2_no_frontmatter {Y : Type} (F : Facilities Y) (fs : FS)
    (base path content : Str)
    (hfs : fs path = some content)
    (hnd : findSub delim content = none) :
    ∃ q : Page Y, Page.new_from_file F fs base path = Except.ok q ∧
      q.meta = none ∧ q.markdown_raw = [] ∧ q.html = [] := by
  have hpre : ¬ delim <+: content := findSub_none_no_pre _ _ hnd
  refine ⟨_, new_from_file_split_failure F fs base path content hfs ?_, rfl, rfl, rfl⟩
  simp [parse_and_find_content, find_yaml_block, hpre]

/-- C4: whenever the frontmatter splitting facility reports a parse
failure on the raw content, page construction still succeeds, with absent
`meta` and empty `markdown_raw` and `html`. -/
theorem claim_C4_split_failure_swallowed {Y : Type} (F : Facilities Y)
    (fs : FS) (base path content : Str)
    (hfs : fs path = some content)
    (hfail : parse_and_find_content F content = Except.error ()) :
    ∃ q : Page Y, Page.new_from_file F fs base path = Except.ok q ∧
      q.meta = none ∧ q.markdown_raw = [] ∧ q.html = [] :=
  ⟨_, new_from_file_split_failure F fs base path content hfs hfail, rfl, rfl, rfl⟩

/-- A concrete instantiation of the external facilities over `Unit`
metadata documents, used to exercise the theorems on closed inputs: the
one document emits as `"k"`, the empty YAML stream loads as no document,
and anything else is a parse failure. -/
def unitFacilities : Facilities Unit where
  yamlLoad := fun s =>
    if s = [] then Except.ok none
    else if s = ("k").data then Except.ok (some ())
    else Except.error ()
  yamlEmit := fun _ => ("k").data
  render := id

/-- A file system with a single readable file `a.md` containing `hello`. -/
def sampleFS : FS :=
  fun q => if q = ("a.md").data then some ("hello").data else none

/-- A file system with a single file `b.md` whose frontmatter block does
not parse as YAML under `unitFacilities`. -/
def sampleFS2 : FS :=
  fun q => if q = ("b.md").data then some (("---\nzz\n---\nbody").data) else none

/-- C2 witness: loading the delimiter-free file `a.md` of `sampleFS`. -/
theorem claim_C2_no_frontmatter_witness :
    ∃ q : Page Unit,
      Page.new_from_file unitFacilities sampleFS [] ("a.md").data
        = Except.ok q ∧
      q.meta = none ∧ q.markdown_raw = [] ∧ q.html = [] :=
  claim_C2_no_frontmatter unitFacilities sampleFS [] ("a.md").data
    ("hello").data (by decide) (by decide)

/-- C4 witness: loading `b.md` of `sampleFS2`, whose frontmatter block is
rejected by the YAML loader. -/
theorem claim_C4_split_failure_swallowed_witness :
    ∃ q : Page Unit,
      Page.new_from_file unitFacilities sampleFS2 [] ("b.md").data
        = Except.ok q ∧
      q.meta = none ∧ q.markdown_raw = [] ∧ q.html = [] :=
  claim_C4_split_failure_swallowed unitFacilities sampleFS2 [] ("b.md").data
    (("---\nzz\n---\nbody").data) (by decide) (by decide)

/-- C10: with absent `meta`, `update_raw` writes an empty frontmatter
block `"---\n---\n"` before the body, so a page loaded from a
delimiter-free file never saves back to its original content. -/
theorem claim_C10_empty_frontmatter {Y : Type} :
    (∀ (F : Facilities Y) (p : Page Y), p.meta = none →
        (p.update_raw F).raw = delim ++ delim ++ p.markdown_raw) ∧
    (∀ (F : Facilities Y) (fs : FS) (base path content : Str) (q : Page Y),
        fs path = some content → findSub delim content = none →
        Page.new_from_file F fs base path = Except.ok q →
        (q.update_raw F).raw ≠ content) := by
  constructor
  · intro F p hm
    rw [update_raw_spec]
    simp [hm]
  · intro F fs base path content q hfs hnd hq
    have hpre : ¬ delim <+: content := findSub_none_no_pre _ _ hnd
    have hok := new_from_file_split_failure F fs base path content hfs
      (by simp [parse_and_find_content, find_yaml_block, hpre])
    rw [hok] at hq
    injection hq with hq
    subst hq
    intro hc
    rw [update_raw_spec] at hc
    simp only [List.append_nil] at hc
    exact hpre ⟨delim, hc⟩

/-- The page produced by loading `a.md` from `sampleFS`. -/
def page0 : Page Unit :=
  { base_path := []
    path := ("a.md").data
    url := ("a").data
    raw := ("hello").data
    meta := none
    markdown_raw := []
    markdown := []
    html := [] }

/-- C10 witness: saving the page loaded from the frontmatter-free file
`a.md` does not reproduce the original content `hello`. -/
theorem claim_C10_empty_frontmatter_witness :
    (Page.update_raw unitFacilities page0).raw ≠ ("hello").data :=
  claim_C10_empty_frontmatter.2 unitFacilities sampleFS [] ("a.md").data
    ("hello").data page0 (by decide) (by decide) (by decide)

/-- Parsing the content rebuilt by `update_raw` recovers the metadata and
the markdown body, provided the YAML facilities round-trip and the
emitted metadata does not produce a premature delimiter occurrence. -/
lemma parse_update_raw {Y : Type} (F : Facilities Y) (p : Page Y)
    (hempty : F.yamlLoad [] = Except.ok none)
    (hmeta : ∀ y, p.meta = some y →
        F.yamlLoad (F.yamlEmit y) = Except.ok (some y) ∧
        findSub delim (F.yamlEmit y ++ (delim ++ p.markdown_raw))
          = some (F.yamlEmit y).length) :
    parse_and_find_content F (p.update_raw F).raw
      = Except.ok (p.meta, p.markdown_raw) := by
  rw [update_raw_spec]
  cases hm : p.meta with
  | none =>
    simp only [List.nil_append]
    unfold parse_and_find_content find_yaml_block
    have hpre : delim <+: delim ++ (delim ++ p.markdown_raw) := ⟨_, rfl⟩
    rw [if_pos hpre, List.drop_left, findSub_here]
    simp only [List.take_zero, hempty, Nat.zero_add, List.drop_left]
  | some y =>
    obtain ⟨hload, hfind⟩ := hmeta y hm
    have hpre : delim <+:
        delim ++ (F.yamlEmit y ++ (delim ++ p.markdown_raw)) := ⟨_, rfl⟩
    have hdrop : (F.yamlEmit y ++ (delim ++ p.markdown_raw)).drop
        ((F.yamlEmit y).length + delim.length) = p.markdown_raw := by
      rw [List.drop_append, List.drop_left]
    simp only [parse_and_find_content, find_yaml_block, hpre, if_true,
      List.drop_left, hfind, List.take_left, hload, hdrop]

/-- C3: a successful save followed by a fresh load from the same path
yields a page with the same `meta` and `markdown_raw`, provided the YAML
facilities round-trip (an empty block loads as no document, an emitted
document loads back to itself and introduces no premature delimiter). -/
theorem claim_C3_save_load_roundtrip {Y : Type} (F : Facilities Y) (fs : FS)
    (p : Page Y)
    (hempty : F.yamlLoad [] = Except.ok none)
    (hmeta : ∀ y, p.meta = some y →
        F.yamlLoad (F.yamlEmit y) = Except.ok (some y) ∧
        findSub delim (F.yamlEmit y ++ (delim ++ p.markdown_raw))
          = some (F.yamlEmit y).length) :
    ∃ q : Page Y,
      Page.new_from_file F (p.save_to_file F fs).2 p.base_path p.path
        = Except.ok q ∧
      q.meta = p.meta ∧ q.markdown_raw = p.markdown_raw := by
  have hparse := parse_update_raw F p hempty hmeta
  have hfs : (p.save_to_file F fs).2 p.path = some (p.update_raw F).raw := by
    simp [Page.save_to_file, Page.update_raw]
  refine ⟨_, new_from_file_read_ok F _ p.base_path p.path _ hfs, ?_, ?_⟩ <;>
    simp [Page.load, hparse, Page.update_markdown]

/-- A page carrying the one `Unit` metadata document and a small body. -/
def page1 : Page Unit :=
  { base_path := []
    path := ("a.md").data
    url := ("a").data
    raw := []
    meta := some ()
    markdown_raw := ("hi").data
    markdown := ("hi").data
    html := ("hi").data }

/-- C3 witness: saving `page1` (which has metadata) and freshly loading
its path restores its `meta` and `markdown_raw`. -/
theorem claim_C3_save_load_roundtrip_witness :
    ∃ q : Page Unit,
      Page.new_from_file unitFacilities
        (page1.save_to_file unitFacilities (fun _ => none)).2
        page1.base_path page1.path = Except.ok q ∧
      q.meta = page1.meta ∧ q.markdown_raw = page1.markdown_raw :=
  claim_C3_save_load_roundtrip unitFacilities (fun _ => none) page1
    (by decide)
    (fun y _ => by cases y; exact ⟨by decide, by decide⟩)

/-- One entry of the directory walk: its path and whether it is a regular
file. -/
structure WalkEntry where
  path : Str
  isFile : Bool
  deriving DecidableEq

/-- The `Wiki` struct of `src/wiki/mod.rs`. -/
structure Wiki (Y : Type) where
  path : Str
  pages : List (Page Y)
  deriving DecidableEq

/-- `Wiki::load_pages` over the walk's entry stream: `.md` regular files
are loaded; a page whose load fails is reported and skipped; a walk entry
that is itself an error is `.unwrap()`ed by the source, modelled as the
whole construction returning `none` (a panic). -/
def load_pages {Y : Type} (F : Facilities Y) (fs : FS) (root : Str) :
    List (Except Unit WalkEntry) → Option (List (Page Y))
  | [] => some []
  | Except.error _ :: _ => none
  | Except.ok e :: rest =>
    if e.isFile = true ∧ mdSuffix <:+ e.path then
      match Page.new_from_file F fs root e.path with
      | Except.ok page => (load_pages F fs root rest).map (fun ps => page :: ps)
      | Except.error _ => load_pages F fs root rest
    else
      load_pages F fs root rest

/-- `Wiki::new`: builds the wiki and loads all pages; `none` models the
panic on a directory-walk entry error. -/
def Wiki.new {Y : Type} (F : Facilities Y) (fs : FS) (pathname : Str)
    (entries : List (Except Unit WalkEntry)) : Option (Wiki Y) :=
  (load_pages F fs pathname entries).map
    (fun pages => { path := pathname, pages := pages })

/-- The loop of `Wiki::get`: first page whose `url` equals the query. -/
def getAux {Y : Type} : List (Page Y) → Str → Option (Page Y)
  | [], _ => none
  | p :: rest, url => if p.url = url then some p else getAux rest url

/-- `Wiki::get`: linear scan over `pages` by exact url equality. -/
def Wiki.get {Y : Type} (w : Wiki Y) (url : Str) : Option (Page Y) :=
  getAux w.pages url

/-- The per-entry outcome of the walk: an `.md` regular file contributes
its page when its load succeeds, and nothing otherwise. -/
def load_entry {Y : Type} (F : Facilities Y) (fs : FS) (root : Str)
    (e : WalkEntry) : Option (Page Y) :=
  if e.isFile = true ∧ mdSuffix <:+ e.path then
    (Page.new_from_file F fs root e.path).toOption
  else none

/-- On an error-free entry stream, `load_pages` succeeds and collects
exactly the pages of the loadable `.md` files, in order. -/
lemma load_pages_ok {Y : Type} (F : Facilities Y) (fs : FS) (root : Str)
    (es : List WalkEntry) :
    load_pages F fs root (es.map Except.ok)
      = some (es.filterMap (load_entry F fs root)) := by
  induction es with
  | nil => rfl
  | cons e rest ih =>
    simp only [List.map_cons, load_pages, List.filterMap_cons]
    by_cases hc : e.isFile = true ∧ mdSuffix <:+ e.path
    · cases hnf : Page.new_from_file F fs root e.path (Y := Y) with
      | ok page => simp [hc, hnf, ih, load_entry, Except.toOption]
      | error err => simp [hc, hnf, ih, load_entry, Except.toOption]
    · simp [hc, ih, load_entry]

/-- C5 (amended): provided every directory-walk entry is yielded without
error, `Wiki::new` succeeds, and its `pages` are exactly the pages of the
`.md` regular files whose load succeeded, in walk order — a page whose
load fails is skipped and absent. -/
theorem claim_C5_no_abort {Y : Type} (F : Facilities Y) (fs : FS)
    (root : Str) (es : List WalkEntry) :
    Wiki.new F fs root (es.map Except.ok)
      = some { path := root, pages := es.filterMap (load_entry F fs root) } := by
  unfold Wiki.new
  rw [load_pages_ok]
  rfl

/-- C5 counterexample: a single erroring directory-walk entry makes
`Wiki::new` fail as a whole (the source `.unwrap()`s each entry), so Wiki
construction does not always succeed. -/
theorem claim_C5_counterexample :
    Wiki.new unitFacilities (fun _ => none) ("r").data
      (Except.error () :: []) = (none : Option (Wiki Unit)) := by
  rfl

/-- `getAux` misses exactly when no page has the url. -/
lemma getAux_eq_none {Y : Type} (url : Str) :
    ∀ ps : List (Page Y), getAux ps url = none ↔ ∀ p ∈ ps, p.url ≠ url := by
  intro ps
  induction ps with
  | nil => simp [getAux]
  | cons p rest ih =>
    by_cases h : p.url = url
    · simp [getAux, h]
    · simp [getAux, h, ih]

/-- `getAux` returns a matching page preceded only by non-matching ones. -/
lemma getAux_eq_some {Y : Type} (url : Str) :
    ∀ (ps : List (Page Y)) (q : Page Y), getAux ps url = some q →
      q.url = url ∧ ∃ pre post, ps = pre ++ q :: post ∧
        ∀ r ∈ pre, r.url ≠ url := by
  intro ps
  induction ps with
  | nil => intro q h; simp [getAux] at h
  | cons p rest ih =>
    intro q h
    simp only [getAux] at h
    by_cases hc : p.url = url
    · rw [if_pos hc] at h
      injection h with h
      subst h
      exact ⟨hc, [], rest, rfl, by simp⟩
    · rw [if_neg hc] at h
      obtain ⟨h1, pre, post, hsplit, hpre⟩ := ih q h
      refine ⟨h1, p :: pre, post, by rw [hsplit]; rfl, ?_⟩
      intro r hr
      rcases List.mem_cons.mp hr with hr | hr
      · exact hr ▸ hc
      · exact hpre r hr

/-- C8: `Wiki::get` returns `none` exactly when no page has the queried
url, and any returned page has that url and is the first such page in
collection order. -/
theorem claim_C8_lookup {Y : Type} (w : Wiki Y) (url : Str) :
    (w.get url = none ↔ ∀ p ∈ w.pages, p.url ≠ url) ∧
    (∀ q, w.get url = some q → q.url = url ∧
      ∃ pre post, w.pages = pre ++ q :: post ∧ ∀ r ∈ pre, r.url ≠ url) :=
  ⟨getAux_eq_none url w.pages, fun q h => getAux_eq_some url w.pages q h⟩

/-- A wiki holding two pages that share the url `"a"`. -/
def wiki0 : Wiki Unit := { path := [], pages := page0 :: page1 :: [] }

/-- C8 witness: on `wiki0`, looking up `"a"` yields the first of the two
pages with that url. -/
theorem claim_C8_lookup_witness :
    page0.url = ("a").data ∧
    ∃ pre post, wiki0.pages = pre ++ page0 :: post ∧
      ∀ r ∈ pre, r.url ≠ ("a").data :=
  (claim_C8_lookup wiki0 ("a").data).2 page0 (by decide)

end WikiRs
